import Mathlib

/-!
Shallow embedding of `src/src/helpers.rs` of the `versionize_derive` crate:
attribute scanning, field-attribute parsing, typed accessors, the `repr(C)`
layout probe and the version aggregator, together with theorems settling the
specification claims about them.

Rust panics (`panic!`, `Option::unwrap`, `Result::unwrap`) are modelled by the
`Except String` monad carrying the panic message.
-/

set_option autoImplicit false

namespace Syn

/-- Model of `syn::Lit`: the literal kinds the helpers distinguish — integer
and string literals, plus a representative further kind (`bool`). The integer
constructor carries the mathematical base-10 value (possibly negative). -/
inductive Lit where
  | int (value : Int)
  | str (value : String)
  | bool (value : Bool)
deriving DecidableEq

/-- Model of `syn::Path`: a sequence of path segments. `get_ident` succeeds
exactly on single-segment paths, as in `syn`. -/
structure Path where
  segments : List String
deriving DecidableEq

/-- Model of `syn::Path::get_ident`: `some` of the identifier when the path is
a single segment, `none` otherwise. -/
def Path.getIdent (p : Path) : Option String :=
  match p.segments with
  | [s] => some s
  | _ => none

/-- Model of `syn::Path::is_ident`: the path is exactly the given single
identifier. -/
def Path.isIdentName (p : Path) (name : String) : Bool :=
  match p.getIdent with
  | some s => s = name
  | none => false

mutual

/-- Model of `syn::Meta` together with `syn::NestedMeta`: a meta item is a bare
path, a list of nested items, or a name/value pair; a nested item is a meta
item or a literal. -/
inductive Meta where
  | path (p : Path)
  | list (path : Path) (nested : List NestedMeta)
  | nameValue (path : Path) (lit : Lit)

/-- Nested item inside a `Meta.list`. -/
inductive NestedMeta where
  | meta (m : Meta)
  | lit (l : Lit)

end

/-- Model of `syn::Attribute` as the helpers consume it: its leading `path`
and the result of `Attribute::parse_meta` (`none` models a parse failure). -/
structure Attribute where
  path : Path
  parsedMeta : Option Meta

/-- Model of `proc_macro2::Ident` as produced by `format_ident!`: the host
token constructor is treated as an opaque wrapper around its spelling. -/
structure Ident where
  name : String
deriving DecidableEq

end Syn

open Syn

/-- Modelled from the spec: the marker-namespace constant `ATTRIBUTE_NAME` is
imported from the enclosing module (`lib.rs`), which is not under `src/`; the
spec treats it as an abstract configuration constant `<marker>`. Its concrete
value is irrelevant to every claim. -/
def ATTRIBUTE_NAME : String := "versionize"

/-- Modelled from the spec: the option-name constant `START_VERSION` from the
enclosing module (`lib.rs`, not under `src/`); the spec's option table names
the option `start_version`. -/
def START_VERSION : String := "start_version"

/-- Modelled from the spec: the option-name constant `END_VERSION` from the
enclosing module (`lib.rs`, not under `src/`); the spec's option table names
the option `end_version`. -/
def END_VERSION : String := "end_version"

/-- Message of the Rust panic raised by `Option::unwrap()` on `None`
(`get_ident().unwrap()` in `parse_field_attributes` and `has_c_layout`). -/
def optionUnwrapMsg : String := "called Option::unwrap() on a None value"

/-- Message of the Rust panic raised by `Result::unwrap()` on `Err`
(`base10_parse().unwrap()` in `get_start_version` / `get_end_version`). -/
def resultUnwrapMsg : String := "called Result::unwrap() on an Err value"

/-- Fixed panic message of the non-integer branch of `get_start_version` and
`get_end_version`. -/
def intKindMsg : String := "Field start/end version number must be an integer"

/-- Fixed panic message of the non-string branch of `get_ident_attr`. -/
def strKindMsg : String := "default_fn must be the function name as a String."

/-- The attribute map `HashMap<String, syn::Lit>`: an unordered finite map,
modelled by its lookup function. -/
def AttrMap : Type := String → Option Lit

/-- Model of `HashMap::new`. -/
def AttrMap.empty : AttrMap := fun _ => none

/-- Model of `HashMap::get`. -/
def AttrMap.get (attrs : AttrMap) (k : String) : Option Lit := attrs k

/-- Model of `HashMap::insert`: a later insert for the same key overwrites. -/
def AttrMap.insert (attrs : AttrMap) (k : String) (v : Lit) : AttrMap :=
  fun k' => if k' = k then some v else attrs k'

/-- Model of `syn::LitInt::base10_parse::<u16>()`: succeeds exactly when the
value fits an unsigned 16-bit integer; `.unwrap()` on the failure panics with
the `Result::unwrap` message. -/
def base10_parse_u16 (value : Int) : Except String Nat :=
  if 0 ≤ value ∧ value ≤ 65535 then Except.ok value.toNat
  else Except.error resultUnwrapMsg

/-- Embedding of `get_ident_attr` (`helpers.rs:11-21`): looks up `attr_name`;
a string literal becomes an identifier with the string's spelling, any other
literal kind panics with the fixed `default_fn` message. -/
def get_ident_attr (attrs : AttrMap) (attr_name : String) :
    Except String (Option Ident) :=
  match attrs.get attr_name with
  | none => Except.ok none
  | some (Lit.str s) => Except.ok (some ⟨s⟩)
  | some _ => Except.error strKindMsg

/-- Embedding of `get_start_version` (`helpers.rs:23-31`). -/
def get_start_version (attrs : AttrMap) : Except String (Option Nat) :=
  match attrs.get START_VERSION with
  | some (Lit.int v) =>
    match base10_parse_u16 v with
    | Except.ok n => Except.ok (some n)
    | Except.error e => Except.error e
  | some _ => Except.error intKindMsg
  | none => Except.ok none

/-- Embedding of `get_end_version` (`helpers.rs:33-41`). -/
def get_end_version (attrs : AttrMap) : Except String (Option Nat) :=
  match attrs.get END_VERSION with
  | some (Lit.int v) =>
    match base10_parse_u16 v with
    | Except.ok n => Except.ok (some n)
    | Except.error e => Except.error e
  | some _ => Except.error intKindMsg
  | none => Except.ok none

/-- Contribution of one attribute inside `scan_attributes`' `flat_map` closure
(`helpers.rs:50-60`): nothing unless the leading path is exactly the marker
and `parse_meta` yields a `Meta::List`, whose nested items are then taken. -/
def scan_attribute_step (attribute_name : String) (attr : Syn.Attribute) :
    List NestedMeta :=
  if attr.path.isIdentName attribute_name = false then []
  else
    match attr.parsedMeta with
    | some (Meta.list _ nested) => nested
    | _ => []

/-- Embedding of `scan_attributes` (`helpers.rs:44-63`): flat-map the
per-attribute contribution over the attribute slice, in source order. -/
def scan_attributes (attribute_name : String) (attributes : List Syn.Attribute) :
    List NestedMeta :=
  (attributes.map (scan_attribute_step attribute_name)).flatten

/-- One step of the `for` loop of `parse_field_attributes`
(`helpers.rs:69-79`): a `Meta::NameValue` item inserts
`(path ident, literal)`; `get_ident().unwrap()` panics when the path is not a
single identifier; every other item shape is skipped. -/
def parse_field_step (attrs : AttrMap) (item : NestedMeta) :
    Except String AttrMap :=
  match item with
  | NestedMeta.meta (Meta.nameValue p lit) =>
    match p.getIdent with
    | some name => Except.ok (attrs.insert name lit)
    | none => Except.error optionUnwrapMsg
  | _ => Except.ok attrs

/-- Embedding of `parse_field_attributes` (`helpers.rs:66-81`): fold the
per-item step over the scanned marker items, starting from the empty map. -/
def parse_field_attributes (attributes : List Syn.Attribute) :
    Except String AttrMap :=
  (scan_attributes ATTRIBUTE_NAME attributes).foldlM parse_field_step
    AttrMap.empty

/-- The `for` loop of `has_c_layout` (`helpers.rs:85-93`): returns `true` at
the first bare-path item whose (unwrapped) identifier is `C`;
`get_ident().unwrap()` panics on a non-single-segment path. -/
def has_c_layout_loop : List NestedMeta → Except String Bool
  | [] => Except.ok false
  | NestedMeta.meta (Meta.path p) :: rest =>
    match p.getIdent with
    | some id => if id = "C" then Except.ok true else has_c_layout_loop rest
    | none => Except.error optionUnwrapMsg
  | _ :: rest => has_c_layout_loop rest

/-- Embedding of `has_c_layout` (`helpers.rs:84-96`). -/
def has_c_layout (attributes : List Syn.Attribute) : Except String Bool :=
  has_c_layout_loop (scan_attributes "repr" attributes)

/-- Modelled from the spec: a field descriptor exposing the `Exists`
capability (`start_version`, `end_version`, both unsigned 16-bit); the trait
itself lives in the external `common` crate and is out of this spec's scope,
only its two accessors are consumed. -/
structure FieldDesc where
  start_version : Nat
  end_version : Nat
deriving DecidableEq

/-- One step of the `for` loop of `compute_version` (`helpers.rs:106-113`). -/
def compute_version_step (version : Nat) (field : FieldDesc) : Nat :=
  max version (max field.start_version field.end_version)

/-- Embedding of `compute_version` (`helpers.rs:105-114`). -/
def compute_version (fields : List FieldDesc) : Nat :=
  fields.foldl compute_version_step 0

/-- Definition following the spec's words for the attribute scanner (§4.1):
keep the attributes whose leading path identifier is exactly the marker and
whose parsed form is a nested list, then flatten their nested items in source
order. For claim C8 it is compared against `scan_attributes`, the embedding of
the code. -/
def scan_keeps (attribute_name : String) (attr : Syn.Attribute) : Bool :=
  attr.path.isIdentName attribute_name &&
    match attr.parsedMeta with
    | some (Meta.list _ _) => true
    | _ => false

/-- Nested items of an attribute's parsed list form (spec-side companion of
`scan_keeps`). -/
def scan_nested (attr : Syn.Attribute) : List NestedMeta :=
  match attr.parsedMeta with
  | some (Meta.list _ nested) => nested
  | _ => []

/-- Spec-side scanner: filter by `scan_keeps`, then flatten the nested items. -/
def scan_attributes_spec (attribute_name : String)
    (attributes : List Syn.Attribute) : List NestedMeta :=
  ((attributes.filter (scan_keeps attribute_name)).map scan_nested).flatten

/-- Every name/value item of the list has a single-segment path, so the
`get_ident().unwrap()` of `parse_field_attributes` cannot panic on it. -/
def nvPathsOk (items : List NestedMeta) : Bool :=
  items.all fun item =>
    match item with
    | NestedMeta.meta (Meta.nameValue p _) => p.getIdent.isSome
    | _ => true

/-- Every bare-path item of the list has a single-segment path, so the
`get_ident().unwrap()` of `has_c_layout` cannot panic on it. -/
def pathItemsOk (items : List NestedMeta) : Bool :=
  items.all fun item =>
    match item with
    | NestedMeta.meta (Meta.path p) => p.getIdent.isSome
    | _ => true

/-- Some bare-path item of the list is the single identifier `C`. -/
def containsCPath (items : List NestedMeta) : Bool :=
  items.any fun item =>
    match item with
    | NestedMeta.meta (Meta.path p) =>
      match p.getIdent with
      | some id => id = "C"
      | none => false
    | _ => false

/-- Name/value entries of a scanned item list, in source order, keeping the
items whose path is a single identifier. -/
def nvEntries : List NestedMeta → List (String × Lit)
  | [] => []
  | NestedMeta.meta (Meta.nameValue p lit) :: rest =>
    match p.getIdent with
    | some n => (n, lit) :: nvEntries rest
    | none => nvEntries rest
  | _ :: rest => nvEntries rest

/-- Last-wins lookup: the value of the last entry carrying the given key. -/
def lookupLast (n : String) : List (String × Lit) → Option Lit
  | [] => none
  | e :: rest =>
    match lookupLast n rest with
    | some v => some v
    | none => if n = e.1 then some e.2 else none

theorem compute_loop_le (fields : List FieldDesc) (acc : Nat) :
    acc ≤ fields.foldl compute_version_step acc := by
  induction fields generalizing acc with
  | nil => exact Nat.le_refl _
  | cons f fs ih =>
    exact Nat.le_trans (Nat.le_max_left _ _) (ih (compute_version_step acc f))

theorem compute_loop_mem {f : FieldDesc} {fields : List FieldDesc}
    (hmem : f ∈ fields) (acc : Nat) :
    max f.start_version f.end_version ≤ fields.foldl compute_version_step acc := by
  induction fields generalizing acc with
  | nil => cases hmem
  | cons g gs ih =>
    rcases List.mem_cons.mp hmem with rfl | h
    · exact Nat.le_trans (Nat.le_max_right _ _) (compute_loop_le gs _)
    · exact ih h _

theorem compute_loop_attain (fields : List FieldDesc) (acc : Nat) :
    fields.foldl compute_version_step acc = acc ∨
      ∃ f ∈ fields, fields.foldl compute_version_step acc =
        max f.start_version f.end_version := by
  induction fields generalizing acc with
  | nil => exact Or.inl rfl
  | cons g gs ih =>
    rcases ih (compute_version_step acc g) with h | ⟨f, hf, he⟩
    · rw [List.foldl_cons, h]
      unfold compute_version_step
      rcases Nat.le_total acc (max g.start_version g.end_version) with hle | hle
      · exact Or.inr ⟨g, List.mem_cons_self _ _, Nat.max_eq_right hle⟩
      · exact Or.inl (Nat.max_eq_left hle)
    · exact Or.inr ⟨f, List.mem_cons_of_mem _ hf, by rw [List.foldl_cons]; exact he⟩

/-- C3: `compute_version` returns 0 on the empty slice; it is an upper bound
for every field's start and end version; and on a non-empty slice its value is
attained as some field's start or end version, so it is the maximum of all
reported start and end values. -/
theorem C3_compute_version_is_max :
    compute_version [] = 0 ∧
    (∀ fields : List FieldDesc, ∀ f ∈ fields,
      f.start_version ≤ compute_version fields ∧
        f.end_version ≤ compute_version fields) ∧
    (∀ fields : List FieldDesc, fields ≠ [] →
      ∃ f ∈ fields, compute_version fields = f.start_version ∨
        compute_version fields = f.end_version) := by
  refine ⟨rfl, ?_, ?_⟩
  · intro fields f hf
    have h := compute_loop_mem hf 0
    exact ⟨Nat.le_trans (Nat.le_max_left _ _) h,
      Nat.le_trans (Nat.le_max_right _ _) h⟩
  · intro fields hne
    rcases compute_loop_attain fields 0 with h0 | ⟨f, hf, he⟩
    · rcases fields with _ | ⟨f, fs⟩
      · exact absurd rfl hne
      · have hb := compute_loop_mem (List.mem_cons_self f fs) 0
        refine ⟨f, List.mem_cons_self f fs, Or.inl ?_⟩
        have hz : max f.start_version f.end_version ≤ 0 := by
          rw [h0] at hb; exact hb
        have : compute_version (f :: fs) = 0 := h0
        omega
    · rcases max_choice f.start_version f.end_version with hm | hm
      · refine ⟨f, hf, Or.inl ?_⟩
        rw [compute_version, he, hm]
      · refine ⟨f, hf, Or.inr ?_⟩
        rw [compute_version, he, hm]

/-- Witness for C3 at the spec's scenario E6: fields (0,0), (1,3), (4,2). -/
theorem C3_compute_version_is_max_witness :
    ((⟨1, 3⟩ : FieldDesc).end_version ≤
      compute_version [⟨0, 0⟩, ⟨1, 3⟩, ⟨4, 2⟩]) ∧
    (∃ f ∈ [(⟨0, 0⟩ : FieldDesc), ⟨1, 3⟩, ⟨4, 2⟩],
      compute_version [⟨0, 0⟩, ⟨1, 3⟩, ⟨4, 2⟩] = f.start_version ∨
        compute_version [⟨0, 0⟩, ⟨1, 3⟩, ⟨4, 2⟩] = f.end_version) :=
  ⟨(C3_compute_version_is_max.2.1 [⟨0, 0⟩, ⟨1, 3⟩, ⟨4, 2⟩] ⟨1, 3⟩
      (by simp)).2,
    C3_compute_version_is_max.2.2 [⟨0, 0⟩, ⟨1, 3⟩, ⟨4, 2⟩] (by simp)⟩

/-- C4: counterexample — a non-empty field list whose versions are all zero
also yields `compute_version = 0`, so "0 iff the field list is empty" fails. -/
theorem C4_counterexample :
    compute_version [⟨0, 0⟩] = 0 ∧ ([(⟨0, 0⟩ : FieldDesc)] ≠ []) :=
  ⟨rfl, by simp⟩

/-- C4 (amended): `compute_version fields = 0` iff every field of the list has
start version 0 and end version 0 (in particular, iff the list is empty or
carries only zero version windows). -/
theorem C4_amended_zero_iff :
    ∀ fields : List FieldDesc, compute_version fields = 0 ↔
      ∀ f ∈ fields, f.start_version = 0 ∧ f.end_version = 0 := by
  intro fields
  constructor
  · intro h f hf
    have hb := compute_loop_mem hf 0
    rw [compute_version] at h
    rw [h] at hb
    omega
  · intro h
    rcases compute_loop_attain fields 0 with h0 | ⟨f, hf, he⟩
    · exact h0
    · rw [compute_version, he, (h f hf).1, (h f hf).2]
      simp

/-- Witness for C4's amended claim at a concrete non-empty all-zero list. -/
theorem C4_amended_zero_iff_witness :
    compute_version [⟨0, 0⟩, ⟨0, 0⟩] = 0 :=
  (C4_amended_zero_iff [⟨0, 0⟩, ⟨0, 0⟩]).mpr (by simp)

theorem scan_attribute_step_eq (name : String) (a : Syn.Attribute) :
    scan_attribute_step name a =
      if scan_keeps name a then scan_nested a else [] := by
  obtain ⟨p, pm⟩ := a
  unfold scan_attribute_step scan_keeps scan_nested
  cases h : p.isIdentName name
  · simp [h]
  · rcases pm with _ | m
    · simp [h]
    · cases m <;> simp [h]

/-- C8: the scanner of the code equals the scanner described by the spec —
exactly the nested meta items of the list-shaped attributes whose leading path
identifier is the marker, flattened in source order; every other attribute
(different leading path, non-list shape, failed parse) contributes zero items,
and the function is total. -/
theorem C8_scan_attributes_eq_spec :
    ∀ (name : String) (attributes : List Syn.Attribute),
      scan_attributes name attributes = scan_attributes_spec name attributes := by
  intro name attributes
  induction attributes with
  | nil => rfl
  | cons a rest ih =>
    unfold scan_attributes scan_attributes_spec at *
    simp only [List.map_cons, List.flatten_cons, List.filter_cons]
    rw [scan_attribute_step_eq]
    cases h : scan_keeps name a
    · simpa [h] using ih
    · simp only [if_true, List.map_cons, List.flatten_cons, h]
      rw [ih]

/-- C1: counterexample — with `start_version` mapped to the integer literal
65536 (too large for `u16`), `get_start_version` fails, but through
`base10_parse().unwrap()` with the `Result::unwrap` panic message, not with
the fixed message "Field start/end version number must be an integer". -/
theorem C1_counterexample :
    get_start_version (fun _ => some (Lit.int 65536)) =
      Except.error resultUnwrapMsg ∧
    resultUnwrapMsg ≠ intKindMsg := by
  refine ⟨rfl, ?_⟩
  decide

/-- C1 (amended): when `start_version` (resp. `end_version`) is present and
maps to an integer literal whose base-10 value is negative or exceeds 65535,
`get_start_version` (resp. `get_end_version`) does fail generation, but with
the `Result::unwrap` panic message of `base10_parse().unwrap()`, which differs
from the fixed message — the fixed message is raised only when the literal is
present with a non-integer kind. -/
theorem C1_amended_overflow_panics_via_unwrap :
    (∀ (attrs : AttrMap) (v : Int),
      AttrMap.get attrs START_VERSION = some (Lit.int v) →
      (v < 0 ∨ 65535 < v) →
      get_start_version attrs = Except.error resultUnwrapMsg) ∧
    (∀ (attrs : AttrMap) (v : Int),
      AttrMap.get attrs END_VERSION = some (Lit.int v) →
      (v < 0 ∨ 65535 < v) →
      get_end_version attrs = Except.error resultUnwrapMsg) ∧
    resultUnwrapMsg ≠ intKindMsg := by
  refine ⟨?_, ?_, by decide⟩
  · intro attrs v h hv
    have hne : ¬ (0 ≤ v ∧ v ≤ 65535) := by rcases hv with hv | hv <;> omega
    simp [get_start_version, h, base10_parse_u16, hne]
  · intro attrs v h hv
    have hne : ¬ (0 ≤ v ∧ v ≤ 65535) := by rcases hv with hv | hv <;> omega
    simp [get_end_version, h, base10_parse_u16, hne]

/-- Witness for C1's amended claim at a negative literal for `end_version`. -/
theorem C1_amended_witness :
    get_end_version (fun _ => some (Lit.int (-1))) =
      Except.error resultUnwrapMsg :=
  C1_amended_overflow_panics_via_unwrap.2.1 _ (-1) rfl (Or.inl (by decide))

/-- C6: absent keys make all three typed accessors return no value
(`Except.ok none`), and present keys of the wrong literal kind fail with the
corresponding fixed message — the integer message for `start_version` and
`end_version`, the string message for `default_fn`. -/
theorem C6_absence_and_kind_enforcement :
    (∀ attrs : AttrMap, AttrMap.get attrs START_VERSION = none →
      get_start_version attrs = Except.ok none) ∧
    (∀ attrs : AttrMap, AttrMap.get attrs END_VERSION = none →
      get_end_version attrs = Except.ok none) ∧
    (∀ (attrs : AttrMap) (name : String), AttrMap.get attrs name = none →
      get_ident_attr attrs name = Except.ok none) ∧
    (∀ (attrs : AttrMap) (l : Lit),
      AttrMap.get attrs START_VERSION = some l → (∀ v, l ≠ Lit.int v) →
      get_start_version attrs = Except.error intKindMsg) ∧
    (∀ (attrs : AttrMap) (l : Lit),
      AttrMap.get attrs END_VERSION = some l → (∀ v, l ≠ Lit.int v) →
      get_end_version attrs = Except.error intKindMsg) ∧
    (∀ (attrs : AttrMap) (l : Lit),
      AttrMap.get attrs "default_fn" = some l → (∀ s, l ≠ Lit.str s) →
      get_ident_attr attrs "default_fn" = Except.error strKindMsg) := by
  refine ⟨?_, ?_, ?_, ?_, ?_, ?_⟩
  · intro attrs h; simp [get_start_version, h]
  · intro attrs h; simp [get_end_version, h]
  · intro attrs name h; simp [get_ident_attr, h]
  · intro attrs l h hl
    rcases l with v | s | b
    · exact absurd rfl (hl v)
    · simp [get_start_version, h]
    · simp [get_start_version, h]
  · intro attrs l h hl
    rcases l with v | s | b
    · exact absurd rfl (hl v)
    · simp [get_end_version, h]
    · simp [get_end_version, h]
  · intro attrs l h hl
    rcases l with v | s | b
    · simp [get_ident_attr, h]
    · exact absurd rfl (hl s)
    · simp [get_ident_attr, h]

/-- Witness for C6: an empty map yields no value, and a boolean literal under
`default_fn` raises the fixed string message. -/
theorem C6_witness :
    get_start_version AttrMap.empty = Except.ok none ∧
    get_ident_attr (fun _ => some (Lit.bool true)) "default_fn" =
      Except.error strKindMsg :=
  ⟨C6_absence_and_kind_enforcement.1 AttrMap.empty rfl,
    C6_absence_and_kind_enforcement.2.2.2.2.2 _ (Lit.bool true) rfl
      (fun s h => Lit.noConfusion h)⟩

/-- C7: when `default_fn` maps to a string literal, `get_ident_attr` returns
an identifier spelled as the string's content; when it maps to any other
literal kind it fails with exactly the fixed `default_fn` message. -/
theorem C7_default_fn_ident :
    (∀ (attrs : AttrMap) (s : String),
      AttrMap.get attrs "default_fn" = some (Lit.str s) →
      get_ident_attr attrs "default_fn" = Except.ok (some ⟨s⟩)) ∧
    (∀ (attrs : AttrMap) (l : Lit),
      AttrMap.get attrs "default_fn" = some l → (∀ s, l ≠ Lit.str s) →
      get_ident_attr attrs "default_fn" = Except.error strKindMsg) := by
  constructor
  · intro attrs s h; simp [get_ident_attr, h]
  · intro attrs l h hl
    rcases l with v | s | b
    · simp [get_ident_attr, h]
    · exact absurd rfl (hl s)
    · simp [get_ident_attr, h]

/-- Witness for C7 at the spec's scenario E4: `default_fn = "make_zero"`
yields the identifier `make_zero`, and an integer literal raises the fixed
message. -/
theorem C7_default_fn_ident_witness :
    get_ident_attr (fun _ => some (Lit.str "make_zero")) "default_fn" =
      Except.ok (some ⟨"make_zero"⟩) ∧
    get_ident_attr (fun _ => some (Lit.int 7)) "default_fn" =
      Except.error strKindMsg :=
  ⟨C7_default_fn_ident.1 _ "make_zero" rfl,
    C7_default_fn_ident.2 _ (Lit.int 7) rfl (fun s h => Lit.noConfusion h)⟩

theorem parse_loop_ok (items : List NestedMeta) :
    ∀ m0 : AttrMap, nvPathsOk items = true →
      ∃ m : AttrMap, items.foldlM parse_field_step m0 = Except.ok m := by
  induction items with
  | nil => intro m0 _; exact ⟨m0, rfl⟩
  | cons item rest ih =>
    intro m0 hok
    rw [nvPathsOk, List.all_cons, Bool.and_eq_true] at hok
    rcases item with m | l
    · rcases m with p | ⟨p, nested⟩ | ⟨p, lit⟩
      · exact ih m0 hok.2
      · exact ih m0 hok.2
      · obtain ⟨n, hn⟩ := Option.isSome_iff_exists.mp hok.1
        have : (NestedMeta.meta (Meta.nameValue p lit) :: rest).foldlM
            parse_field_step m0 =
            rest.foldlM parse_field_step (m0.insert n lit) := by
          simp only [List.foldlM, parse_field_step, hn]
          rfl
        rw [this]
        exact ih _ hok.2
    · exact ih m0 hok.2

/-- C2: counterexample — a marker attribute carrying a name/value item with a
two-segment path makes `parse_field_attributes` panic through
`get_ident().unwrap()` instead of returning a map, so it does not "never fail
at parse time". -/
theorem C2_counterexample :
    parse_field_attributes
      [⟨⟨["versionize"]⟩,
        some (Meta.list ⟨["versionize"]⟩
          [NestedMeta.meta (Meta.nameValue ⟨["a", "b"]⟩ (Lit.int 1))])⟩] =
      Except.error optionUnwrapMsg := by
  rfl

/-- C2 (amended): `parse_field_attributes` returns an attribute map (deferring
all value-kind enforcement to the typed accessors) on every attribute slice in
which each name/value item under the marker has a single-segment identifier
path; on other slices it panics through `get_ident().unwrap()`. -/
theorem C2_amended_total_on_ident_paths :
    ∀ attributes : List Syn.Attribute,
      nvPathsOk (scan_attributes ATTRIBUTE_NAME attributes) = true →
      ∃ m : AttrMap, parse_field_attributes attributes = Except.ok m := by
  intro attributes hok
  exact parse_loop_ok _ AttrMap.empty hok

/-- Witness for C2's amended claim on a single well-formed marker attribute. -/
theorem C2_amended_witness :
    ∃ m : AttrMap,
      parse_field_attributes
        [⟨⟨["versionize"]⟩,
          some (Meta.list ⟨["versionize"]⟩
            [NestedMeta.meta (Meta.nameValue ⟨["start_version"]⟩
              (Lit.int 2))])⟩] = Except.ok m :=
  C2_amended_total_on_ident_paths _ (by decide)

theorem parse_loop_get (items : List NestedMeta) :
    ∀ m0 m : AttrMap, items.foldlM parse_field_step m0 = Except.ok m →
      ∀ n : String, AttrMap.get m n =
        match lookupLast n (nvEntries items) with
        | some v => some v
        | none => AttrMap.get m0 n := by
  induction items with
  | nil =>
    intro m0 m h n
    injection h with h
    subst h
    rfl
  | cons item rest ih =>
    intro m0 m h n
    rcases item with mi | l
    · rcases mi with p | ⟨p, nested⟩ | ⟨p, lit⟩
      · exact ih m0 m h n
      · exact ih m0 m h n
      · cases hn : p.getIdent with
        | none =>
          rw [show (NestedMeta.meta (Meta.nameValue p lit) :: rest).foldlM
              parse_field_step m0 = Except.error optionUnwrapMsg by
            simp only [List.foldlM, parse_field_step, hn]; rfl] at h
          cases h
        | some nm =>
          rw [show (NestedMeta.meta (Meta.nameValue p lit) :: rest).foldlM
              parse_field_step m0 =
              rest.foldlM parse_field_step (m0.insert nm lit) by
            simp only [List.foldlM, parse_field_step, hn]; rfl] at h
          have hrec := ih _ m h n
          rw [hrec]
          simp only [nvEntries, hn, lookupLast]
          cases hl : lookupLast n (nvEntries rest)
          · simp only [AttrMap.get, AttrMap.insert]
            by_cases heq : n = nm
            · simp [heq]
            · simp [heq]
          · rfl
    · exact ih m0 m h n

/-- C9: whenever `parse_field_attributes` returns a map, looking up any name
in it gives exactly the literal of the last name/value item with that name
among the items scanned under the facility's marker — so there is one entry
per name/value option name, duplicates resolve to the last occurrence,
non-name-value items are skipped, and non-marker annotations contribute
nothing. -/
theorem C9_parse_field_attributes_map :
    ∀ (attributes : List Syn.Attribute) (m : AttrMap),
      parse_field_attributes attributes = Except.ok m →
      ∀ n : String, AttrMap.get m n =
        lookupLast n (nvEntries (scan_attributes ATTRIBUTE_NAME attributes)) := by
  intro attributes m h n
  have hrec := parse_loop_get _ _ _ h n
  rw [hrec]
  cases hl : lookupLast n (nvEntries (scan_attributes ATTRIBUTE_NAME attributes))
  · rfl
  · rfl

/-- Witness for C9 on a slice with a duplicated option name under the marker
and a separate non-marker annotation: the lookup resolves to the last
occurrence. -/
theorem C9_parse_field_attributes_map_witness :
    AttrMap.get ((AttrMap.empty.insert "start_version" (Lit.int 1)).insert
        "start_version" (Lit.int 2)) "start_version" =
      lookupLast "start_version"
        (nvEntries (scan_attributes ATTRIBUTE_NAME
          [⟨⟨["versionize"]⟩,
            some (Meta.list ⟨["versionize"]⟩
              [NestedMeta.meta (Meta.nameValue ⟨["start_version"]⟩ (Lit.int 1)),
                NestedMeta.meta (Meta.nameValue ⟨["start_version"]⟩
                  (Lit.int 2))])⟩,
            ⟨⟨["other"]⟩,
              some (Meta.list ⟨["other"]⟩
                [NestedMeta.meta (Meta.nameValue ⟨["end_version"]⟩
                  (Lit.int 9))])⟩])) := by
  apply C9_parse_field_attributes_map
  rfl

theorem has_c_layout_loop_ok (items : List NestedMeta) :
    pathItemsOk items = true →
    has_c_layout_loop items = Except.ok (containsCPath items) := by
  induction items with
  | nil => intro _; rfl
  | cons item rest ih =>
    intro hok
    rw [pathItemsOk, List.all_cons, Bool.and_eq_true] at hok
    rcases item with mi | l
    · rcases mi with p | ⟨p, nested⟩ | ⟨p, lit⟩
      · obtain ⟨id, hid⟩ := Option.isSome_iff_exists.mp hok.1
        by_cases hC : id = "C"
        · subst hC
          simp [has_c_layout_loop, containsCPath, hid]
        · simp [has_c_layout_loop, containsCPath, hid, hC, ih hok.2,
            containsCPath]
      · simpa [has_c_layout_loop, containsCPath] using ih hok.2
      · simpa [has_c_layout_loop, containsCPath] using ih hok.2
    · simpa [has_c_layout_loop, containsCPath] using ih hok.2

/-- C5: counterexample — a `repr` attribute whose nested item is a bare
two-segment path makes `has_c_layout` panic through `get_ident().unwrap()`
instead of ignoring the item, so "other repr items are ignored (no error)"
fails. -/
theorem C5_counterexample :
    has_c_layout
      [⟨⟨["repr"]⟩,
        some (Meta.list ⟨["repr"]⟩
          [NestedMeta.meta (Meta.path ⟨["a", "b"]⟩)])⟩] =
      Except.error optionUnwrapMsg := by
  rfl

/-- C5 (amended): on every attribute slice in which each bare-path item
scanned under `repr` is a single-segment identifier, `has_c_layout` returns
true iff some such item is the identifier `C` — other repr items and `repr`
attributes of other shapes are ignored — and a slice contributing no `repr`
items yields false; on a slice with a multi-segment bare path under `repr` it
can instead panic. -/
theorem C5_amended_c_layout :
    (∀ attributes : List Syn.Attribute,
      pathItemsOk (scan_attributes "repr" attributes) = true →
      has_c_layout attributes =
        Except.ok (containsCPath (scan_attributes "repr" attributes))) ∧
    (∀ attributes : List Syn.Attribute,
      scan_attributes "repr" attributes = [] →
      has_c_layout attributes = Except.ok false) := by
  constructor
  · intro attributes hok
    exact has_c_layout_loop_ok _ hok
  · intro attributes h
    rw [has_c_layout, h]
    rfl

/-- Witness for C5's amended claim at the spec's scenario E1: `repr(C)` is
reported, other items (`packed`) are ignored. -/
theorem C5_amended_c_layout_witness :
    has_c_layout
      [⟨⟨["repr"]⟩,
        some (Meta.list ⟨["repr"]⟩
          [NestedMeta.meta (Meta.path ⟨["packed"]⟩),
            NestedMeta.meta (Meta.path ⟨["C"]⟩)])⟩] = Except.ok true := by
  have h := C5_amended_c_layout.1
    [⟨⟨["repr"]⟩,
      some (Meta.list ⟨["repr"]⟩
        [NestedMeta.meta (Meta.path ⟨["packed"]⟩),
          NestedMeta.meta (Meta.path ⟨["C"]⟩)])⟩] (by decide)
  simpa using h

/-- C10: `has_c_layout` panics through `get_ident().unwrap()` on a `repr`
attribute whose nested item is a bare multi-segment path, and on every slice
whose scanned `repr` bare-path items are all single-segment identifiers it is
total, returning a boolean. -/
theorem C10_has_c_layout_panics_on_multisegment_path :
    has_c_layout
      [⟨⟨["repr"]⟩,
        some (Meta.list ⟨["repr"]⟩
          [NestedMeta.meta (Meta.path ⟨["core", "ffi"]⟩)])⟩] =
      Except.error optionUnwrapMsg ∧
    (∀ attributes : List Syn.Attribute,
      pathItemsOk (scan_attributes "repr" attributes) = true →
      ∃ b : Bool, has_c_layout attributes = Except.ok b) := by
  constructor
  · rfl
  · intro attributes hok
    exact ⟨containsCPath (scan_attributes "repr" attributes),
      has_c_layout_loop_ok _ hok⟩

/-- Witness for C10's totality part on a slice whose `repr` items are bare
single identifiers. -/
theorem C10_has_c_layout_panics_witness :
    ∃ b : Bool,
      has_c_layout
        [⟨⟨["repr"]⟩,
          some (Meta.list ⟨["repr"]⟩
            [NestedMeta.meta (Meta.path ⟨["packed"]⟩)])⟩] = Except.ok b :=
  C10_has_c_layout_panics_on_multisegment_path.2 _ (by decide)
